import Mathlib

/-!
# Memory Ledger Protocol v0.2 — verification of the core engine

Shallow embedding of the Memory Ledger Protocol storage engine:
the relevance scorer (`src/integrations/clawdbot/src/relevance.js`),
the ContextPack compiler (`src/mlp-storage/src/context-pack.js`),
the envelope attestation verifier (`src/integrations/clawdbot/src/envelope.js`),
the encryption wrapper (`src/mlp-storage/src/encryption.js`),
the local content-addressed store (`Storage.storeLocal`), and the
access-policy evaluator (`AccessPolicy` in `src/mlp-storage/src/encryption.js`).

JavaScript numbers are modelled as rationals (`ℚ`), timestamps as integer
milliseconds (`Int`), and the ambient clock (`Date.now()`) as an explicit
`now` parameter.  Caller-supplied callbacks (`queryEnvelopes`,
`fetchAndDecrypt`, `encryption.verify`) are modelled as function parameters;
a JavaScript `throw` caught by the caller is modelled by an `Option`/`Except`
result.
-/

/-! ## String helpers (JS `toLowerCase`, `includes`, `split(/\s+/)`) -/

/-- JS `String.prototype.toLowerCase` (ASCII-level model). -/
def lowerStr (s : String) : String := ⟨s.data.map Char.toLower⟩

/-- Does `sub` occur at the head of `l`? (helper for substring search). -/
def leadMatch : List Char → List Char → Bool
  | [], _ => true
  | _ :: _, [] => false
  | a :: as, b :: bs => a == b && leadMatch as bs

/-- Does `sub` occur anywhere in `l`? (model of JS `String.prototype.includes`
on char lists). -/
def hasSubList (sub : List Char) : List Char → Bool
  | [] => leadMatch sub []
  | b :: bs => leadMatch sub (b :: bs) || hasSubList sub bs

/-- JS `s.includes(sub)`. -/
def strHas (s sub : String) : Bool := hasSubList sub.data s.data

/-- JS `\s` whitespace class (the characters relevant here). -/
def isSpaceChar (c : Char) : Bool := c == ' ' || c == '\t' || c == '\n' || c == '\r'

/-- JS `\w` word-character class: `[A-Za-z0-9_]`. -/
def isWordChar (c : Char) : Bool := c.isAlphanum || c == '_'

/-- Worker for JS `s.split(/\s+/)`.  `inRun = false`: collecting the current
field `cur`; `inRun = true`: inside a whitespace separator run (a following
whitespace character is absorbed into the same run). -/
def splitWsAux : Bool → List Char → List Char → List (List Char)
  | false, [], cur => [cur.reverse]
  | false, c :: rest, cur =>
    if isSpaceChar c then cur.reverse :: splitWsAux true rest []
    else splitWsAux false rest (c :: cur)
  | true, [], _ => [[]]
  | true, c :: rest, _ =>
    if isSpaceChar c then splitWsAux true rest []
    else splitWsAux false rest [c]

/-- JS `s.split(/\s+/)` on a char list (empty leading/trailing fields kept,
exactly as in JavaScript). -/
def splitWs (l : List Char) : List (List Char) := splitWsAux false l []

/-- JS `Math.min` on two numbers (kernel-computable form). -/
def ratMin (a b : ℚ) : ℚ := if a ≤ b then a else b

/-- JS `Math.max` on two numbers (kernel-computable form). -/
def ratMax (a b : ℚ) : ℚ := if a ≤ b then b else a

/-! ## Relevance scorer — `src/integrations/clawdbot/src/relevance.js` -/

/-- The `lineage` record of a `MemoryEnvelope`. -/
structure Lineage where
  parents : List String
  supersedes : List String
  branches : List String
deriving Repr, DecidableEq

/-- One entry of `envelope.attestations`. -/
structure Attestation where
  attester_id : String
  attester_type : String
  level : String
  signature : String
  public_key : Option String
deriving Repr, DecidableEq

/-- `MemoryEnvelope` (`src/integrations/clawdbot/src/envelope.js`): the fields
the scorer, the compiler and `verify` read.  `created_at` is the timestamp in
milliseconds (`new Date(envelope.created_at).getTime()`). -/
structure MemoryEnvelope where
  envelope_id : String
  cid : Option String
  created_at : Int
  scope : String
  kind : String
  lineage : Lineage
  attestations : List Attestation
  topic_tags : List String
  risk_class : String
deriving Repr, DecidableEq

/-- `IdentityKernel` as read by the scorer: the optional chain
`kernel?.invariants?.values` is modelled as one `Option`. -/
structure IdentityKernel where
  kernel_id : String
  invariants_values : Option (List String)
deriving Repr, DecidableEq

/-- `getKindScoresForIntent` (relevance.js lines 54-87): the static table plus
the intent-keyword adjustments, evaluated at one `kind`.  Returns `none` for a
kind absent from the table (JS `undefined`). -/
def kindScoresForIntent (intent : String) (kind : String) : Option ℚ :=
  let il := lowerStr intent
  let hasReflect := strHas il "reflect" || strHas il "review"
  let hasLearn := strHas il "learn" || strHas il "knowledge"
  let hasHistory := strHas il "history" || strHas il "past"
  let hasIdentity := strHas il "identity" || strHas il "values"
  if kind = "semantic" then some (if hasLearn then 1 else 7/10)
  else if kind = "episodic" then
    some (if hasHistory then 1 else if hasReflect then 4/5 else 1/2)
  else if kind = "reflection" then
    some (if hasIdentity then 9/10 else if hasReflect then 1 else 3/5)
  else if kind = "kernel_ref" then some (if hasIdentity then 1 else 4/5)
  else if kind = "policy" then some (2/5)
  else if kind = "tombstone" then some 0
  else none

/-- `kindScores[envelope.kind] || 0.5` — note the JS `||`: a score of `0`
(tombstone) is falsy, so it also falls back to `0.5`. -/
def kindScoreOf (intent : String) (kind : String) : ℚ :=
  match kindScoresForIntent intent kind with
  | none => 1/2
  | some q => if q = 0 then 1/2 else q

/-- `tokenizeIntent` (relevance.js lines 92-98): lowercase, drop characters
that are neither word characters nor whitespace, split on whitespace, keep
tokens longer than 2 characters. -/
def tokenizeIntent (intent : String) : List (List Char) :=
  let cleaned := (lowerStr intent).data.filter (fun c => isWordChar c || isSpaceChar c)
  (splitWs cleaned).filter (fun t => 2 < t.length)

/-- `computeTagOverlap` (relevance.js lines 103-110). -/
def computeTagOverlap (intentTokens : List (List Char)) (tags : List String) : ℚ :=
  if tags.length = 0 ∨ intentTokens.length = 0 then 1/2
  else
    let nMatches := (intentTokens.filter
      (fun t => tags.any (fun tg => (lowerStr tg).data == t))).length
    (nMatches : ℚ) / (Nat.max intentTokens.length tags.length : ℚ)

/-- `computeValueAlignment` (relevance.js lines 115-132). -/
def computeValueAlignment (envelope : MemoryEnvelope) (kernel : IdentityKernel) : ℚ :=
  match kernel.invariants_values with
  | none => 1/2
  | some values =>
    let vals := values.map lowerStr
    let tags := envelope.topic_tags.map lowerStr
    if vals.any (fun value =>
        (splitWs value.data).any (fun token =>
          tags.any (fun t => hasSubList token t.data)))
    then 9/10 else 1/2

/-- `computeRiskScore` (relevance.js lines 137-156). -/
def computeRiskScore (envelope : MemoryEnvelope) (intent : String) : ℚ :=
  let risk := envelope.risk_class
  let il := lowerStr intent
  if risk = "high" then
    if strHas il "sensitive" || strHas il "private" || strHas il "confidential"
    then 1 else 3/10
  else if risk = "med" then 7/10
  else 1

/-- `computeRelevance` (relevance.js lines 14-49).  `Date.now()` is the
explicit parameter `now` (milliseconds). -/
def computeRelevance (envelope : MemoryEnvelope) (intent : String)
    (kernel : IdentityKernel) (now : Int) : ℚ :=
  let ageMs : Int := now - envelope.created_at
  let ageDays : ℚ := (ageMs : ℚ) / (1000 * 60 * 60 * 24)
  let recencyScore : ℚ := ratMax 0 (1 - ageDays / 365)
  let kindScore := kindScoreOf intent envelope.kind
  let tagOverlap := computeTagOverlap (tokenizeIntent intent) envelope.topic_tags
  let valueScore := computeValueAlignment envelope kernel
  let riskScore := computeRiskScore envelope intent
  let score := (1/4 : ℚ) * recencyScore + (1/5 : ℚ) * kindScore
    + (1/4 : ℚ) * tagOverlap + (3/20 : ℚ) * valueScore + (3/20 : ℚ) * riskScore
  ratMin 1 (ratMax 0 score)

/-- `estimateTokens` (relevance.js lines 162-168): `Math.ceil(length / 4)` on
the serialized content, modelled on the content string. -/
def estimateTokens (content : String) : Nat := (content.length + 3) / 4

/-- One element of the list built by `scoreEnvelopes`. -/
structure ScoredItem where
  envelope : MemoryEnvelope
  score : ℚ
deriving Repr, DecidableEq

/-- The comparator of `scoreEnvelopes`: `sort((a, b) => b.score - a.score)`.
`a` is placed no later than `b` exactly when `b.score ≤ a.score`; on equal
scores the ECMAScript sort is stable, which is the stability of
`List.insertionSort`. -/
def scoreDesc (a b : ScoredItem) : Prop := b.score ≤ a.score

instance : DecidableRel scoreDesc := fun a b => inferInstanceAs (Decidable (b.score ≤ a.score))

instance : IsTotal ScoredItem scoreDesc := ⟨fun a b => le_total b.score a.score⟩

instance : IsTrans ScoredItem scoreDesc := ⟨fun _ _ _ h h2 => le_trans h2 h⟩

/-- `scoreEnvelopes` (relevance.js lines 173-180): map to scored items, then
stable-sort descending by score. -/
def scoreEnvelopes (envelopes : List MemoryEnvelope) (intent : String)
    (kernel : IdentityKernel) (now : Int) : List ScoredItem :=
  List.insertionSort scoreDesc
    (envelopes.map (fun env => ⟨env, computeRelevance env intent kernel now⟩))

/-! ## ContextPack compiler — `src/mlp-storage/src/context-pack.js` -/

/-- One element of `memory_slices`. -/
structure MemorySlice where
  envelope : MemoryEnvelope
  decrypted_content : Option String
  access_level : String
  relevance_score : ℚ
deriving Repr, DecidableEq

/-- The count fields of `compilation_trace` (context-pack.js lines 118-133). -/
structure CompilationTrace where
  memories_considered : Nat
  memories_included : Nat
  memories_redacted : Nat
  memories_metadata_only : Nat
  memories_denied : Nat
  total_tokens : Nat
deriving Repr, DecidableEq

/-- The parts of the compiled pack the claims are about: the slices, the
denied-id list (local `denied` array, surfaced in the trace as its length)
and the trace. -/
structure ContextPack where
  memory_slices : List MemorySlice
  denied_ids : List String
  compilation_trace : CompilationTrace
deriving Repr, DecidableEq

/-- The metadata-only slice pushed when the token budget is exceeded
(context-pack.js lines 77-82). -/
def metaSlice (item : ScoredItem) : MemorySlice :=
  { envelope := item.envelope, decrypted_content := none,
    access_level := "metadata_only", relevance_score := item.score }

/-- The full-content slice pushed within budget (context-pack.js lines
91-96). -/
def fullSlice (item : ScoredItem) (blob : String) : MemorySlice :=
  { envelope := item.envelope, decrypted_content := some blob,
    access_level := "full", relevance_score := item.score }

/-- `included.filter(m => m.access_level === 'full').length`. -/
def fullCount (slices : List MemorySlice) : Nat :=
  (slices.filter (fun m => m.access_level = "full")).length

/-- `included.filter(m => m.access_level === 'metadata_only').length`. -/
def metaCount (slices : List MemorySlice) : Nat :=
  (slices.filter (fun m => m.access_level = "metadata_only")).length

/-- `included.filter(m => m.access_level === 'redacted').length`. -/
def redactedCount (slices : List MemorySlice) : Nat :=
  (slices.filter (fun m => m.access_level = "redacted")).length

/-- The `for (const item of scored)` loop of `compileContextPack`
(context-pack.js lines 60-104).  State threaded exactly as in the source:
`tc` is `tokenCount`, `fc` is `included.filter(m => m.access_level ===
'full').length` at the top of the iteration.  `fetch` models the
caller-supplied `fetchAndDecrypt`; `none` models a thrown error, which the
source catches per item and tallies as denied.  Returns the `included`
slices, the `denied` envelope ids and the final `tokenCount`. -/
def compileLoop (fetch : Option String → Option String) (maxTokens maxMemories : Nat) :
    List ScoredItem → Nat → Nat → List MemorySlice × List String × Nat
  | [], tc, _ => ([], [], tc)
  | item :: rest, tc, fc =>
    if item.envelope.kind = "tombstone" then
      let r := compileLoop fetch maxTokens maxMemories rest tc fc
      (r.1, item.envelope.envelope_id :: r.2.1, r.2.2)
    else
      match fetch item.envelope.cid with
      | none =>
        let r := compileLoop fetch maxTokens maxMemories rest tc fc
        (r.1, item.envelope.envelope_id :: r.2.1, r.2.2)
      | some blob =>
        let tokens := estimateTokens blob
        if maxTokens < tc + tokens then
          let r := compileLoop fetch maxTokens maxMemories rest tc fc
          (metaSlice item :: r.1, r.2.1, r.2.2)
        else if maxMemories ≤ fc then
          ([], [], tc)
        else
          let r := compileLoop fetch maxTokens maxMemories rest (tc + tokens) (fc + 1)
          (fullSlice item blob :: r.1, r.2.1, r.2.2)

/-- `compileContextPack` (context-pack.js lines 24-149) restricted to the
fields the claims mention.  `candidates` is the result of the caller-supplied
`queryEnvelopes` (the candidate set); `fetch` is `fetchAndDecrypt`; `now` is
`Date.now()` used by the scorer. -/
def compileContextPack (fetch : Option String → Option String)
    (maxTokens maxMemories : Nat) (candidates : List MemoryEnvelope)
    (intent : String) (kernel : IdentityKernel) (now : Int) : ContextPack :=
  let scored := scoreEnvelopes candidates intent kernel now
  let r := compileLoop fetch maxTokens maxMemories scored 0 0
  { memory_slices := r.1,
    denied_ids := r.2.1,
    compilation_trace :=
      { memories_considered := candidates.length,
        memories_included := fullCount r.1,
        memories_redacted := redactedCount r.1,
        memories_metadata_only := metaCount r.1,
        memories_denied := r.2.1.length,
        total_tokens := r.2.2 } }

/-- Summed token estimate of the full-content slices of a slice list. -/
def sumFullTokens (slices : List MemorySlice) : Nat :=
  ((slices.filter (fun m => m.access_level = "full")).map
    (fun m => match m.decrypted_content with
      | some blob => estimateTokens blob
      | none => 0)).sum

/-! ## Concrete fixtures for counterexamples and witnesses -/

/-- A candidate envelope with the defaults of the `MemoryEnvelope`
constructor (scope `agent`, empty lineage, no tags, risk `low`). -/
def mkEnv (id : String) (cid : Option String) (created : Int) (kind : String) : MemoryEnvelope :=
  { envelope_id := id, cid := cid, created_at := created, scope := "agent",
    kind := kind, lineage := ⟨[], [], []⟩, attestations := [],
    topic_tags := [], risk_class := "low" }

/-- The tombstone produced by `createTombstone` (envelope.js lines 57-70) for
an envelope with id `target`: `kind = tombstone`, `lineage.supersedes =
[target]`. -/
def mkTombstone (id : String) (target : String) (created : Int) : MemoryEnvelope :=
  { envelope_id := id, cid := none, created_at := created, scope := "agent",
    kind := "tombstone", lineage := ⟨[], [target], []⟩, attestations := [],
    topic_tags := [], risk_class := "low" }

/-- A kernel with no `invariants.values` (the scorer then uses its default). -/
def kernel0 : IdentityKernel := ⟨"K", none⟩

/-! ## Envelope attestation verification —
`src/integrations/clawdbot/src/envelope.js` lines 158-198 -/

/-- One element of the `results` array of `MemoryEnvelope.verify`. -/
structure AttResult where
  attester : String
  valid : Bool
deriving Repr, DecidableEq

/-- The result of `MemoryEnvelope.verify`: the overall boolean and the
per-attestation results (empty in the zero-attestation early return). -/
structure VerifyResult where
  valid : Bool
  results : List AttResult
deriving Repr, DecidableEq

/-- JS `a || b` on possibly-absent strings: an empty string is falsy, so it
also falls through to `b`. -/
def jsOrStr (a b : Option String) : Option String :=
  match a with
  | some s => if s = "" then b else some s
  | none => b

/-- JS falsiness of a possibly-absent string (`!publicKey`). -/
def jsFalsyStr : Option String → Bool
  | none => true
  | some s => s = ""

/-- `trustedKeys[attestation.attester_id] || attestation.public_key`
(envelope.js line 165). -/
def resolveKey (trustedKeys : String → Option String) (att : Attestation) : Option String :=
  jsOrStr (trustedKeys att.attester_id) att.public_key

/-- The body of the `for (const attestation of this.attestations)` loop of
`verify` for one attestation.  `verifyFn` models `encryption.verify` applied
to `this.getSignableData()`, the signature and the resolved public key;
`none` models a thrown error, caught by the source and recorded as an
invalid result. -/
def attVerify (verifyFn : MemoryEnvelope → String → String → Option Bool)
    (trustedKeys : String → Option String) (env : MemoryEnvelope)
    (att : Attestation) : AttResult :=
  let publicKey := resolveKey trustedKeys att
  if jsFalsyStr publicKey then
    { attester := att.attester_id, valid := false }
  else
    match publicKey with
    | none => { attester := att.attester_id, valid := false }
    | some key =>
      match verifyFn env att.signature key with
      | none => { attester := att.attester_id, valid := false }
      | some b => { attester := att.attester_id, valid := b }

namespace MemoryEnvelope

/-- `MemoryEnvelope.verify` (envelope.js lines 158-198): empty attestation
list returns `{valid: false}` immediately; otherwise every attestation is
checked and the overall flag is `results.every(r => r.valid)`. -/
def verify (verifyFn : MemoryEnvelope → String → String → Option Bool)
    (trustedKeys : String → Option String) (env : MemoryEnvelope) : VerifyResult :=
  if env.attestations.length = 0 then
    { valid := false, results := [] }
  else
    let results := env.attestations.map (attVerify verifyFn trustedKeys env)
    { valid := results.all (fun r => r.valid), results := results }

end MemoryEnvelope

/-! ## Encryption — `src/mlp-storage/src/encryption.js` lines 84-119

`Encryption.encrypt` serializes the plaintext (`JSON.stringify`, then UTF-8
bytes), seals it with `nacl.secretbox` under a random nonce, and returns
`{nonce, ciphertext, algorithm}`; `Encryption.decrypt` opens the box and
parses the result, throwing when authentication fails.

Modelled from the spec: `JSON.stringify`/`JSON.parse` and TweetNaCl are
external to the repository.  The plaintext is modelled as its serialized
byte string (`JSON.parse` is the exact inverse of `JSON.stringify` on
serializable values), and `nacl.secretbox` is modelled per the spec's AEAD
contract (§4.1): a keystream cipher over the message bytes plus an
authentication tag checked by `secretbox.open`, which fails (`null`) on
mismatch.  Keys and nonces are modelled as natural numbers. -/

/-- Model keystream byte `i` of the stream cipher under key `k`, nonce `n`. -/
def ksByte (k n i : Nat) : Nat := (k + 131 * n + 257 * i) % 256

/-- XOR the message with the keystream starting at position `i`; the cipher
is its own inverse. -/
def xorStream (k n : Nat) : Nat → List Nat → List Nat
  | _, [] => []
  | i, b :: bs => (b ^^^ ksByte k n i) :: xorStream k n (i + 1) bs

/-- Model authentication tag over the ciphertext (Poly1305 stand-in). -/
def macTag (k n : Nat) (ct : List Nat) : Nat :=
  ct.foldl (fun a b => (a * 31 + b) % 65536) ((k + 7 * n) % 65536)

/-- Model of `nacl.secretbox(message, nonce, key)`: tag followed by the
enciphered message. -/
def secretbox (m : List Nat) (n k : Nat) : List Nat :=
  let ct := xorStream k n 0 m
  macTag k n ct :: ct

/-- Model of `nacl.secretbox.open(ciphertext, nonce, key)`: `none` (JS
`null`) when the tag does not authenticate. -/
def secretboxOpen (c : List Nat) (n k : Nat) : Option (List Nat) :=
  match c with
  | [] => none
  | t :: ct => if t = macTag k n ct then some (xorStream k n 0 ct) else none

/-- The `{nonce, ciphertext, algorithm}` record returned by
`Encryption.encrypt`. -/
structure EncRecord where
  nonce : Nat
  ciphertext : List Nat
  algorithm : String
deriving Repr, DecidableEq

namespace Encryption

/-- `Encryption.encrypt` (encryption.js lines 84-98): the per-call random
nonce is the explicit parameter `n`; `data` is the serialized plaintext. -/
def encrypt (secretKey : Nat) (algorithm : String) (n : Nat) (data : List Nat) : EncRecord :=
  { nonce := n, ciphertext := secretbox data n secretKey, algorithm := algorithm }

/-- `Encryption.decrypt` (encryption.js lines 103-119): open the box; a
`null` result throws `Decryption failed - invalid key or corrupted data`. -/
def decrypt (secretKey : Nat) (encryptedData : EncRecord) : Except String (List Nat) :=
  match secretboxOpen encryptedData.ciphertext encryptedData.nonce secretKey with
  | none => Except.error "Decryption failed - invalid key or corrupted data"
  | some m => Except.ok m

end Encryption

/-! ## Local content-addressed storage — `Storage.storeLocal`
(`src/mlp-storage/src/storage.js` lines 440-451, bundled in the
context-pack source file) -/

/-- The local store directory: one entry per file path. -/
def LocalStore : Type := String → Option String

/-- The empty store directory. -/
def LocalStore.empty : LocalStore := fun _ => none

/-- JS `s.slice(0, n)` (the hex digest is ASCII, so code units coincide with
characters). -/
def sliceStr (s : String) (n : Nat) : String := ⟨s.data.take n⟩

/-- `Storage.storeLocal` (storage source lines 440-451): the address is
`local_` plus the first 32 hex characters of the SHA-256 of the content, the
file `<cid>.json` is (over)written with the content.  `hashFn` models
`createHash('sha256')...digest('hex')`, a fixed deterministic digest. -/
def storeLocal (hashFn : String → String) (content : String)
    (store : LocalStore) : String × LocalStore :=
  let cid := "local_" ++ sliceStr (hashFn content) 32
  (cid, fun p => if p = cid ++ ".json" then some content else store p)

/-! ## AccessPolicy — `src/mlp-storage/src/encryption.js` lines 927-1217
(`access-policy.js`, bundled in the encryption source file) -/

/-- The names of the five permission lists of `AccessPolicy.permissions`. -/
inductive PermKind
  | read | write | derive | share | revoke
deriving Repr, DecidableEq

/-- `AccessPolicy.permissions`: the five principal-id lists. -/
structure Permissions where
  read : List String
  write : List String
  derive : List String
  share : List String
  revoke : List String
deriving Repr, DecidableEq

/-- Look up one permission list (`this.permissions[permission]`). -/
def Permissions.get (ps : Permissions) : PermKind → List String
  | .read => ps.read
  | .write => ps.write
  | .derive => ps.derive
  | .share => ps.share
  | .revoke => ps.revoke

/-- Replace one permission list. -/
def Permissions.set (ps : Permissions) : PermKind → List String → Permissions
  | .read, l => { ps with read := l }
  | .write, l => { ps with write := l }
  | .derive, l => { ps with derive := l }
  | .share, l => { ps with share := l }
  | .revoke, l => { ps with revoke := l }

/-- `AccessPolicy.constraints`: validity window (millisecond timestamps) and
intent allow/deny lists. -/
structure PolicyConstraints where
  valid_from : Option Int
  valid_until : Option Int
  allowed_intents : List String
  denied_intents : List String
deriving Repr, DecidableEq

/-- `AccessPolicy.redaction`. -/
structure Redaction where
  enabled : Bool
  fields_to_redact : List String
  redaction_pattern : String
deriving Repr, DecidableEq

/-- `AccessPolicy`: the fields its evaluation methods read.  `owner_id`
defaults to `null` in the constructor, hence `Option`. -/
structure AccessPolicy where
  policy_id : String
  owner_id : Option String
  principals : List String
  permissions : Permissions
  constraints : PolicyConstraints
  redaction : Redaction
deriving Repr, DecidableEq

namespace AccessPolicy

/-- `AccessPolicy.hasPermission` (encryption source lines 1011-1018): the
owner identity check precedes any lookup in the permission lists. -/
def hasPermission (p : AccessPolicy) (principalId : String) (permission : PermKind) : Bool :=
  if p.owner_id = some principalId then true
  else
    let allowed := p.permissions.get permission
    allowed.contains principalId || allowed.contains "*"

/-- `AccessPolicy.isValid` (lines 1023-1039), with `new Date()` as the
explicit `now`.  Returns the JS `{valid, reason?}` collapsed to the boolean
the callers branch on. -/
def isValid (p : AccessPolicy) (now : Int) : Bool :=
  if (match p.constraints.valid_from with
      | some f => decide (now < f)
      | none => false) then false
  else if (match p.constraints.valid_until with
      | some u => decide (u < now)
      | none => false) then false
  else true

/-- `AccessPolicy.isIntentAllowed` (lines 1044-1064). -/
def isIntentAllowed (p : AccessPolicy) (intent : String) : Bool :=
  let il := lowerStr intent
  if p.constraints.denied_intents.length ≠ 0 ∧
      p.constraints.denied_intents.any (fun d => strHas il (lowerStr d)) then
    false
  else if p.constraints.allowed_intents.length = 0 then true
  else p.constraints.allowed_intents.any (fun a => strHas il (lowerStr a))

/-- `AccessPolicy.revoke` (lines 1089-1099): remove the principal from one
permission list. -/
def revokePerm (p : AccessPolicy) (principalId : String) (permission : PermKind) : AccessPolicy :=
  let filtered := (p.permissions.get permission).filter (fun id => id ≠ principalId)
  { p with permissions := p.permissions.set permission filtered }

/-- `AccessPolicy.revokeAll` (lines 1104-1113): remove the principal from
every permission list and from `principals`. -/
def revokeAll (p : AccessPolicy) (principalId : String) : AccessPolicy :=
  { p with
    permissions :=
      { read := p.permissions.read.filter (fun id => id ≠ principalId),
        write := p.permissions.write.filter (fun id => id ≠ principalId),
        derive := p.permissions.derive.filter (fun id => id ≠ principalId),
        share := p.permissions.share.filter (fun id => id ≠ principalId),
        revoke := p.permissions.revoke.filter (fun id => id ≠ principalId) },
    principals := p.principals.filter (fun id => id ≠ principalId) }

/-- `AccessPolicy.getAccessLevel` (lines 1158-1175): validity window, then
intent, then `read` permission, then redaction downgrade. -/
def getAccessLevel (p : AccessPolicy) (principalId : String) (intent : String)
    (now : Int) : String :=
  if p.isValid now = false then "denied"
  else if p.isIntentAllowed intent = false then "denied"
  else if p.hasPermission principalId .read = false then "denied"
  else if p.redaction.enabled ∧ p.owner_id ≠ some principalId then "redacted"
  else "full"

end AccessPolicy

/-! ## Shared lemmas -/

/-- The model stream cipher is an involution (xor against the same
keystream). -/
theorem xorStream_xorStream (k n : Nat) :
    ∀ (i : Nat) (m : List Nat), xorStream k n i (xorStream k n i m) = m := by
  intro i m
  induction m generalizing i with
  | nil => rfl
  | cons b bs ih =>
    simp only [xorStream, ih]
    rw [Nat.xor_assoc, Nat.xor_self, Nat.xor_zero]

/-- Opening a freshly sealed box under the same nonce and key recovers the
message. -/
theorem secretboxOpen_secretbox (m : List Nat) (n k : Nat) :
    secretboxOpen (secretbox m n k) n k = some m := by
  simp [secretbox, secretboxOpen, xorStream_xorStream]

/-! ## Claim theorems -/

/-- C4: For all plaintext `P`, `decrypt(encrypt(P)) == P`: decrypting the
`{nonce, ciphertext, algorithm}` record produced by `Encryption.encrypt`
under the same secret key returns exactly the original input. -/
theorem decrypt_encrypt_roundtrip (secretKey : Nat) (algorithm : String)
    (nonce : Nat) (data : List Nat) :
    Encryption.decrypt secretKey (Encryption.encrypt secretKey algorithm nonce data)
      = Except.ok data := by
  simp [Encryption.encrypt, Encryption.decrypt, secretboxOpen_secretbox]

/-- C8: For the local backend and every content, calling `put` twice returns
the same address both times and leaves exactly one stored object (the
address is a deterministic hash of the content, so the second write
overwrites the same file). -/
theorem storeLocal_idempotent (hashFn : String → String) (content : String) :
    (storeLocal hashFn content (storeLocal hashFn content LocalStore.empty).2).1
      = (storeLocal hashFn content LocalStore.empty).1
    ∧ ∀ p, (storeLocal hashFn content (storeLocal hashFn content LocalStore.empty).2).2 p
      = if p = (storeLocal hashFn content LocalStore.empty).1 ++ ".json" then some content
        else none := by
  refine ⟨rfl, fun p => ?_⟩
  by_cases h : p = ("local_" ++ sliceStr (hashFn content) 32) ++ ".json" <;>
    simp [storeLocal, LocalStore.empty, h]

/-- C10: the owner's implicit permissions survive the policy's own
revocation interface: after `revokeAll(owner)` (or `revoke(owner, perm)`),
`hasPermission(owner, perm)` still returns `true`, because the owner
identity check precedes any lookup in the permission lists. -/
theorem owner_retains_permissions (p : AccessPolicy) (ownerId : String) (perm : PermKind)
    (h : p.owner_id = some ownerId) :
    (p.revokeAll ownerId).hasPermission ownerId perm = true
    ∧ (p.revokePerm ownerId perm).hasPermission ownerId perm = true := by
  constructor <;>
    simp [AccessPolicy.revokeAll, AccessPolicy.revokePerm, AccessPolicy.hasPermission, h]

/-- A concrete policy: owner `alice`, principal `bob` granted `read`, with a
validity window that ends at time 100. -/
def policyW : AccessPolicy :=
  { policy_id := "P",
    owner_id := some "alice",
    principals := ["alice", "bob"],
    permissions := { read := ["alice", "bob"], write := ["alice"], derive := ["alice"],
                     share := ["alice"], revoke := ["alice"] },
    constraints := { valid_from := none, valid_until := some 100,
                     allowed_intents := [], denied_intents := [] },
    redaction := { enabled := false, fields_to_redact := [], redaction_pattern := "[REDACTED]" } }

/-- Witness for C10 at a concrete policy and permission. -/
theorem owner_retains_permissions_witness :
    policyW.owner_id = some "alice"
    ∧ (policyW.revokeAll "alice").hasPermission "alice" PermKind.read = true
    ∧ (policyW.revokePerm "alice" PermKind.read).hasPermission "alice" PermKind.read = true :=
  ⟨rfl, (owner_retains_permissions policyW "alice" PermKind.read rfl).1,
    (owner_retains_permissions policyW "alice" PermKind.read rfl).2⟩

/-- C5: a policy whose `valid_until` lies in the past (or whose `valid_from`
lies in the future) yields `getAccessLevel = denied` for every principal and
every intent — the time-window check short-circuits before any permission
lookup. -/
theorem expired_policy_denies (p : AccessPolicy) (principalId intent : String) (now : Int)
    (h : (∃ u, p.constraints.valid_until = some u ∧ u < now)
       ∨ (∃ f, p.constraints.valid_from = some f ∧ now < f)) :
    p.getAccessLevel principalId intent now = "denied" := by
  have hv : p.isValid now = false := by
    unfold AccessPolicy.isValid
    rcases h with ⟨u, hu, hlt⟩ | ⟨f, hf, hlt⟩
    · rcases hvf : p.constraints.valid_from with _ | f
      · simp [hvf, hu, hlt]
      · by_cases hnf : now < f
        · simp [hvf, hnf]
        · simp [hvf, hnf, hu, hlt]
    · simp [hf, hlt]
  unfold AccessPolicy.getAccessLevel
  simp [hv]

/-- Witness for C5: `policyW` expires at 100; at time 200 even `bob`, who is
explicitly listed under `read`, is denied. -/
theorem expired_policy_denies_witness :
    policyW.constraints.valid_until = some 100 ∧ (100 : Int) < 200
    ∧ policyW.permissions.read.contains "bob" = true
    ∧ policyW.getAccessLevel "bob" "hello" 200 = "denied" :=
  ⟨rfl, by decide, by decide,
    expired_policy_denies policyW "bob" "hello" 200 (Or.inl ⟨100, rfl, by decide⟩)⟩

/-- C6: `verify()` is overall-valid exactly when there is at least one
attestation and every attestation checks out; per-attestation results are
reported one-for-one. -/
theorem verify_valid_iff (verifyFn : MemoryEnvelope → String → String → Option Bool)
    (trustedKeys : String → Option String) (env : MemoryEnvelope) :
    ((env.verify verifyFn trustedKeys).valid = true ↔
      env.attestations ≠ []
      ∧ ∀ att ∈ env.attestations, (attVerify verifyFn trustedKeys env att).valid = true)
    ∧ (env.verify verifyFn trustedKeys).results.length = env.attestations.length := by
  unfold MemoryEnvelope.verify
  by_cases h : env.attestations.length = 0
  · have he : env.attestations = [] := List.length_eq_zero.mp h
    simp [h, he]
  · have hne : env.attestations ≠ [] := by
      intro he
      rw [he] at h
      exact h rfl
    constructor
    · simp [h, hne, List.all_eq_true]
    · simp [h]

/-- A verification callback that accepts every signature (model input). -/
def verifyFnW : MemoryEnvelope → String → String → Option Bool := fun _ _ _ => some true

/-- A trusted-key table with no entries (model input). -/
def trustedKeysW : String → Option String := fun _ => none

/-- A single self-signed attestation carrying its public key. -/
def attW : Attestation :=
  { attester_id := "alice", attester_type := "agent", level := "SELF_SIGNED",
    signature := "sig", public_key := some "PK" }

/-- An envelope carrying exactly one attestation. -/
def envW : MemoryEnvelope :=
  { mkEnv "W" none 0 "semantic" with attestations := [attW] }

/-- Witness for C6 at a concrete envelope: one attestation that verifies
makes the overall result `true`. -/
theorem verify_valid_iff_witness :
    (envW.verify verifyFnW trustedKeysW).valid = true :=
  (verify_valid_iff verifyFnW trustedKeysW envW).1.mpr ⟨by decide, by decide⟩

/-! ## Compile-loop equations and invariants -/

theorem compileLoop_nil (fetch : Option String → Option String) (mt mm tc fc : Nat) :
    compileLoop fetch mt mm [] tc fc = ([], [], tc) := rfl

theorem compileLoop_tomb {item : ScoredItem} (ht : item.envelope.kind = "tombstone")
    (fetch : Option String → Option String) (mt mm : Nat) (rest : List ScoredItem)
    (tc fc : Nat) :
    compileLoop fetch mt mm (item :: rest) tc fc =
      ((compileLoop fetch mt mm rest tc fc).1,
       item.envelope.envelope_id :: (compileLoop fetch mt mm rest tc fc).2.1,
       (compileLoop fetch mt mm rest tc fc).2.2) := by
  simp [compileLoop, ht]

theorem compileLoop_fetchFail {fetch : Option String → Option String} {item : ScoredItem}
    (ht : ¬ item.envelope.kind = "tombstone") (hf : fetch item.envelope.cid = none)
    (mt mm : Nat) (rest : List ScoredItem) (tc fc : Nat) :
    compileLoop fetch mt mm (item :: rest) tc fc =
      ((compileLoop fetch mt mm rest tc fc).1,
       item.envelope.envelope_id :: (compileLoop fetch mt mm rest tc fc).2.1,
       (compileLoop fetch mt mm rest tc fc).2.2) := by
  simp [compileLoop, ht, hf]

theorem compileLoop_over {fetch : Option String → Option String} {item : ScoredItem}
    {blob : String} {mt tc : Nat}
    (ht : ¬ item.envelope.kind = "tombstone") (hf : fetch item.envelope.cid = some blob)
    (hb : mt < tc + estimateTokens blob) (mm : Nat) (rest : List ScoredItem) (fc : Nat) :
    compileLoop fetch mt mm (item :: rest) tc fc =
      (metaSlice item :: (compileLoop fetch mt mm rest tc fc).1,
       (compileLoop fetch mt mm rest tc fc).2.1,
       (compileLoop fetch mt mm rest tc fc).2.2) := by
  simp [compileLoop, ht, hf, hb]

theorem compileLoop_break {fetch : Option String → Option String} {item : ScoredItem}
    {blob : String} {mt mm tc fc : Nat}
    (ht : ¬ item.envelope.kind = "tombstone") (hf : fetch item.envelope.cid = some blob)
    (hb : ¬ mt < tc + estimateTokens blob) (hc : mm ≤ fc) (rest : List ScoredItem) :
    compileLoop fetch mt mm (item :: rest) tc fc = ([], [], tc) := by
  simp [compileLoop, ht, hf, hb, hc]

theorem compileLoop_full {fetch : Option String → Option String} {item : ScoredItem}
    {blob : String} {mt mm tc fc : Nat}
    (ht : ¬ item.envelope.kind = "tombstone") (hf : fetch item.envelope.cid = some blob)
    (hb : ¬ mt < tc + estimateTokens blob) (hc : ¬ mm ≤ fc) (rest : List ScoredItem) :
    compileLoop fetch mt mm (item :: rest) tc fc =
      (fullSlice item blob
         :: (compileLoop fetch mt mm rest (tc + estimateTokens blob) (fc + 1)).1,
       (compileLoop fetch mt mm rest (tc + estimateTokens blob) (fc + 1)).2.1,
       (compileLoop fetch mt mm rest (tc + estimateTokens blob) (fc + 1)).2.2) := by
  simp [compileLoop, ht, hf, hb, hc]

theorem sumFullTokens_nil : sumFullTokens [] = 0 := rfl

theorem sumFullTokens_meta (item : ScoredItem) (s : List MemorySlice) :
    sumFullTokens (metaSlice item :: s) = sumFullTokens s := by
  simp [sumFullTokens, metaSlice]

theorem sumFullTokens_full (item : ScoredItem) (blob : String) (s : List MemorySlice) :
    sumFullTokens (fullSlice item blob :: s) = estimateTokens blob + sumFullTokens s := by
  simp [sumFullTokens, fullSlice]

theorem fullCount_meta (item : ScoredItem) (s : List MemorySlice) :
    fullCount (metaSlice item :: s) = fullCount s := by
  simp [fullCount, metaSlice]

theorem fullCount_full (item : ScoredItem) (blob : String) (s : List MemorySlice) :
    fullCount (fullSlice item blob :: s) = fullCount s + 1 := by
  simp [fullCount, fullSlice]

theorem metaCount_meta (item : ScoredItem) (s : List MemorySlice) :
    metaCount (metaSlice item :: s) = metaCount s + 1 := by
  simp [metaCount, metaSlice]

theorem metaCount_full (item : ScoredItem) (blob : String) (s : List MemorySlice) :
    metaCount (fullSlice item blob :: s) = metaCount s := by
  simp [metaCount, fullSlice]

/-- Loop invariant: the final `tokenCount` is the starting one plus the
summed token estimates of the full slices produced. -/
theorem compileLoop_tokens_eq (fetch : Option String → Option String) (mt mm : Nat) :
    ∀ (items : List ScoredItem) (tc fc : Nat),
      (compileLoop fetch mt mm items tc fc).2.2
        = tc + sumFullTokens (compileLoop fetch mt mm items tc fc).1 := by
  intro items
  induction items with
  | nil => intro tc fc; simp [compileLoop_nil, sumFullTokens_nil]
  | cons item rest ih =>
    intro tc fc
    by_cases ht : item.envelope.kind = "tombstone"
    · rw [compileLoop_tomb ht]
      exact ih tc fc
    · cases hf : fetch item.envelope.cid with
      | none =>
        rw [compileLoop_fetchFail ht hf]
        exact ih tc fc
      | some blob =>
        by_cases hb : mt < tc + estimateTokens blob
        · rw [compileLoop_over ht hf hb]
          simpa [sumFullTokens_meta] using ih tc fc
        · by_cases hc : mm ≤ fc
          · rw [compileLoop_break ht hf hb hc]
            simp [sumFullTokens_nil]
          · rw [compileLoop_full ht hf hb hc]
            have := ih (tc + estimateTokens blob) (fc + 1)
            simp only [sumFullTokens_full]
            omega

/-- Loop invariant: a `tokenCount` within budget stays within budget. -/
theorem compileLoop_tokens_le (fetch : Option String → Option String) (mt mm : Nat) :
    ∀ (items : List ScoredItem) (tc fc : Nat), tc ≤ mt →
      (compileLoop fetch mt mm items tc fc).2.2 ≤ mt := by
  intro items
  induction items with
  | nil => intro tc fc h; simpa [compileLoop_nil] using h
  | cons item rest ih =>
    intro tc fc h
    by_cases ht : item.envelope.kind = "tombstone"
    · rw [compileLoop_tomb ht]; exact ih tc fc h
    · cases hf : fetch item.envelope.cid with
      | none => rw [compileLoop_fetchFail ht hf]; exact ih tc fc h
      | some blob =>
        by_cases hb : mt < tc + estimateTokens blob
        · rw [compileLoop_over ht hf hb]; exact ih tc fc h
        · by_cases hc : mm ≤ fc
          · rw [compileLoop_break ht hf hb hc]; exact h
          · rw [compileLoop_full ht hf hb hc]
            exact ih (tc + estimateTokens blob) (fc + 1) (by omega)

/-- Loop accounting: every candidate lands in the slices or the denied list
(`≤` in general, `=` when the `maxMemories` break is never taken, which is
guaranteed when fewer than `maxMemories` full slices come out). -/
theorem compileLoop_counts (fetch : Option String → Option String) (mt mm : Nat) :
    ∀ (items : List ScoredItem) (tc fc : Nat),
      (fullCount (compileLoop fetch mt mm items tc fc).1
        + metaCount (compileLoop fetch mt mm items tc fc).1
        + (compileLoop fetch mt mm items tc fc).2.1.length ≤ items.length)
      ∧ (fc + fullCount (compileLoop fetch mt mm items tc fc).1 < mm →
          fullCount (compileLoop fetch mt mm items tc fc).1
            + metaCount (compileLoop fetch mt mm items tc fc).1
            + (compileLoop fetch mt mm items tc fc).2.1.length = items.length) := by
  intro items
  induction items with
  | nil =>
    intro tc fc
    simp [compileLoop_nil, fullCount, metaCount]
  | cons item rest ih =>
    intro tc fc
    by_cases ht : item.envelope.kind = "tombstone"
    · rw [compileLoop_tomb ht]
      have h := ih tc fc
      constructor
      · simp only [List.length_cons]
        omega
      · intro hlt
        have := h.2 hlt
        simp only [List.length_cons]
        omega
    · cases hf : fetch item.envelope.cid with
      | none =>
        rw [compileLoop_fetchFail ht hf]
        have h := ih tc fc
        constructor
        · simp only [List.length_cons]
          omega
        · intro hlt
          have := h.2 hlt
          simp only [List.length_cons]
          omega
      | some blob =>
        by_cases hb : mt < tc + estimateTokens blob
        · rw [compileLoop_over ht hf hb]
          have h := ih tc fc
          rw [fullCount_meta, metaCount_meta]
          constructor
          · simp only [List.length_cons]
            omega
          · intro hlt
            have := h.2 hlt
            simp only [List.length_cons]
            omega
        · by_cases hc : mm ≤ fc
          · rw [compileLoop_break ht hf hb hc]
            constructor
            · simp [fullCount, metaCount]
            · intro hlt
              simp only [fullCount, metaCount, List.filter_nil, List.length_nil] at hlt
              omega
          · rw [compileLoop_full ht hf hb hc]
            have h := ih (tc + estimateTokens blob) (fc + 1)
            rw [fullCount_full, metaCount_full]
            constructor
            · simp only [List.length_cons]
              omega
            · intro hlt
              have := h.2 (by omega)
              simp only [List.length_cons]
              omega

/-- Scoring preserves the number of candidates. -/
theorem scoreEnvelopes_length (envelopes : List MemoryEnvelope) (intent : String)
    (kernel : IdentityKernel) (now : Int) :
    (scoreEnvelopes envelopes intent kernel now).length = envelopes.length := by
  unfold scoreEnvelopes
  rw [(List.perm_insertionSort scoreDesc _).length_eq, List.length_map]

/-- C3 (amended): the trace counts satisfy `included + metadata_only +
denied ≤ considered` always, with equality whenever fewer than `maxMemories`
full items come out (so the `maxMemories` break was never taken); when the
break fires, the remaining candidates are dropped unaccounted. -/
theorem compile_trace_accounting (fetch : Option String → Option String)
    (mt mm : Nat) (candidates : List MemoryEnvelope) (intent : String)
    (kernel : IdentityKernel) (now : Int) :
    ((compileContextPack fetch mt mm candidates intent kernel now).compilation_trace.memories_included
      + (compileContextPack fetch mt mm candidates intent kernel now).compilation_trace.memories_metadata_only
      + (compileContextPack fetch mt mm candidates intent kernel now).compilation_trace.memories_denied
      ≤ (compileContextPack fetch mt mm candidates intent kernel now).compilation_trace.memories_considered)
    ∧ ((compileContextPack fetch mt mm candidates intent kernel now).compilation_trace.memories_included < mm →
        (compileContextPack fetch mt mm candidates intent kernel now).compilation_trace.memories_included
        + (compileContextPack fetch mt mm candidates intent kernel now).compilation_trace.memories_metadata_only
        + (compileContextPack fetch mt mm candidates intent kernel now).compilation_trace.memories_denied
        = (compileContextPack fetch mt mm candidates intent kernel now).compilation_trace.memories_considered) := by
  have h := compileLoop_counts fetch mt mm (scoreEnvelopes candidates intent kernel now) 0 0
  have hlen := scoreEnvelopes_length candidates intent kernel now
  rw [hlen] at h
  constructor
  · simpa [compileContextPack] using h.1
  · intro hlt
    have hlt2 : 0 + fullCount (compileLoop fetch mt mm
        (scoreEnvelopes candidates intent kernel now) 0 0).1 < mm := by
      simpa [compileContextPack] using hlt
    simpa [compileContextPack] using h.2 hlt2

/-- Candidate envelope `A`: freshest, full-content blob of 32 characters. -/
def envCA : MemoryEnvelope := mkEnv "A" (some "c1") 31536000000 "semantic"

/-- Candidate envelope `B`: half a year older, blob of 32 characters. -/
def envCB : MemoryEnvelope := mkEnv "B" (some "c2") 15768000000 "semantic"

/-- Candidate envelope `C`: a year old, small blob of 4 characters. -/
def envCC : MemoryEnvelope := mkEnv "C" (some "c3") 0 "semantic"

/-- Fetch callback serving the three blobs above. -/
def fetchC : Option String → Option String := fun c =>
  if c = some "c1" then some "AAAAAAAAAAAAAAAAAAAAAAAAAAAAAAAA"
  else if c = some "c2" then some "BBBBBBBBBBBBBBBBBBBBBBBBBBBBBBBB"
  else if c = some "c3" then some "DDDD" else none

/-- The clock for the concrete compilations (one year, in milliseconds). -/
def nowC : Int := 31536000000

/-- The compilation with `maxMemories = 1` over two decryptable candidates. -/
def packC3 : ContextPack :=
  compileContextPack fetchC 4000 1 [envCA, envCB] "hello" kernel0 nowC

/-- Counterexample to C3 as stated: with `maxMemories = 1` and two
non-tombstone candidates, the loop breaks after the first full item and the
second candidate is dropped unaccounted, so
`included + metadata_only + denied = 1 ≠ 2 = considered`. -/
theorem trace_counts_break_counterexample :
    packC3.compilation_trace.memories_considered = 2
    ∧ packC3.compilation_trace.memories_included = 1
    ∧ packC3.compilation_trace.memories_metadata_only = 0
    ∧ packC3.compilation_trace.memories_denied = 0
    ∧ packC3.compilation_trace.memories_included
        + packC3.compilation_trace.memories_metadata_only
        + packC3.compilation_trace.memories_denied
        ≠ packC3.compilation_trace.memories_considered := by
  with_unfolding_all decide

/-- Witness for C3 (amended) at a concrete compilation that stays under the
`maxMemories` cap: the counts balance exactly. -/
theorem compile_trace_accounting_witness :
    ((compileContextPack fetchC 4000 20 [envCA, envCB] "hello" kernel0 nowC).compilation_trace.memories_included < 20)
    ∧ ((compileContextPack fetchC 4000 20 [envCA, envCB] "hello" kernel0 nowC).compilation_trace.memories_included
      + (compileContextPack fetchC 4000 20 [envCA, envCB] "hello" kernel0 nowC).compilation_trace.memories_metadata_only
      + (compileContextPack fetchC 4000 20 [envCA, envCB] "hello" kernel0 nowC).compilation_trace.memories_denied
      = (compileContextPack fetchC 4000 20 [envCA, envCB] "hello" kernel0 nowC).compilation_trace.memories_considered) :=
  ⟨by with_unfolding_all decide,
    (compile_trace_accounting fetchC 4000 20 [envCA, envCB] "hello" kernel0 nowC).2
      (by with_unfolding_all decide)⟩

/-- C2 (amended): the summed token estimate of the full-content slices never
exceeds `maxTokens`; an item whose addition would exceed the budget is
recorded as a metadata-only slice (envelope kept, content `null`) rather
than dropped, and the remaining candidates are then processed with the token
count unchanged — so a later, smaller item may still be included in full. -/
theorem compile_budget_respected (fetch : Option String → Option String)
    (mt mm : Nat) (candidates : List MemoryEnvelope) (intent : String)
    (kernel : IdentityKernel) (now : Int) :
    sumFullTokens (compileContextPack fetch mt mm candidates intent kernel now).memory_slices ≤ mt
    ∧ ∀ (item : ScoredItem) (rest : List ScoredItem) (tc fc : Nat) (blob : String),
        ¬ item.envelope.kind = "tombstone" →
        fetch item.envelope.cid = some blob →
        mt < tc + estimateTokens blob →
        compileLoop fetch mt mm (item :: rest) tc fc =
          (metaSlice item :: (compileLoop fetch mt mm rest tc fc).1,
           (compileLoop fetch mt mm rest tc fc).2.1,
           (compileLoop fetch mt mm rest tc fc).2.2) := by
  constructor
  · have heq := compileLoop_tokens_eq fetch mt mm (scoreEnvelopes candidates intent kernel now) 0 0
    have hle := compileLoop_tokens_le fetch mt mm (scoreEnvelopes candidates intent kernel now) 0 0 (Nat.zero_le mt)
    have hb : sumFullTokens (compileLoop fetch mt mm
        (scoreEnvelopes candidates intent kernel now) 0 0).1 ≤ mt := by omega
    simpa [compileContextPack] using hb
  · intro item rest tc fc blob ht hf hover
    exact compileLoop_over ht hf hover mm rest fc

/-- The compilation with `maxTokens = 10` over the three candidates. -/
def packC2 : ContextPack :=
  compileContextPack fetchC 10 20 [envCA, envCB, envCC] "hello" kernel0 nowC

/-- Counterexample to C2 as stated: the second-ranked item exceeds the
budget and becomes metadata-only, but the third-ranked, smaller item still
fits and is included with full content — the candidates after the first
over-budget item are not all metadata-only. -/
theorem budget_not_all_meta_counterexample :
    packC2.memory_slices.map (fun m => m.access_level)
      = ["full", "metadata_only", "full"]
    ∧ packC2.memory_slices.map (fun m => m.envelope.envelope_id) = ["A", "B", "C"] := by
  with_unfolding_all decide

/-- Witness for C2 (amended) at the concrete compilation: the full-slice
token sum respects the budget, and the concrete over-budget step emits a
metadata-only slice with the loop state unchanged. -/
theorem compile_budget_respected_witness :
    sumFullTokens packC2.memory_slices ≤ 10
    ∧ compileLoop fetchC 10 20 [⟨envCB, 0⟩] 8 1 =
        (metaSlice ⟨envCB, 0⟩ :: (compileLoop fetchC 10 20 [] 8 1).1,
         (compileLoop fetchC 10 20 [] 8 1).2.1,
         (compileLoop fetchC 10 20 [] 8 1).2.2) :=
  ⟨(compile_budget_respected fetchC 10 20 [envCA, envCB, envCC] "hello" kernel0 nowC).1,
    (compile_budget_respected fetchC 10 20 [envCA, envCB, envCC] "hello" kernel0 nowC).2
      ⟨envCB, 0⟩ [] 8 1 "BBBBBBBBBBBBBBBBBBBBBBBBBBBBBBBB"
      (by decide) (by decide) (by decide)⟩

/-- C7 (amended): `scoreEnvelopes` returns the scored candidates sorted
descending by score (a stable sort: candidates with equal scores keep their
input order, `created_at` is not consulted as a tie-break). -/
theorem scoreEnvelopes_sorted_perm (envelopes : List MemoryEnvelope) (intent : String)
    (kernel : IdentityKernel) (now : Int) :
    List.Sorted scoreDesc (scoreEnvelopes envelopes intent kernel now)
    ∧ List.Perm (scoreEnvelopes envelopes intent kernel now)
        (envelopes.map (fun env => ⟨env, computeRelevance env intent kernel now⟩)) :=
  ⟨List.sorted_insertionSort scoreDesc _, List.perm_insertionSort scoreDesc _⟩

/-- Tie candidate `A`: two years beyond the one-year recency window. -/
def envTA : MemoryEnvelope := mkEnv "A" none 0 "semantic"

/-- Tie candidate `B`: one year beyond the window, hence more recent than
`A` but with the identical (clamped) score. -/
def envTB : MemoryEnvelope := mkEnv "B" none 31536000000 "semantic"

/-- The clock for the tie counterexample (three years in milliseconds). -/
def nowT : Int := 94608000000

/-- Counterexample to C7 as stated: `A` and `B` tie with the identical score
(both recency-clamped to 0), `B` is the more recent, yet the ranking keeps
the input order `[A, B]` instead of placing `B` first — ties are not broken
by `created_at` descending. -/
theorem scoreEnvelopes_tie_keeps_input_order :
    (scoreEnvelopes [envTA, envTB] "hello" kernel0 nowT).map
        (fun it => it.envelope.envelope_id) = ["A", "B"]
    ∧ (scoreEnvelopes [envTA, envTB] "hello" kernel0 nowT).map (fun it => it.score)
        = [49/100, 49/100]
    ∧ envTA.created_at < envTB.created_at := by
  with_unfolding_all decide

/-- C9 (amended): `computeRelevance` is a pure function of the envelope, the
intent, the kernel and the clock reading, with result in `[0, 1]`; but it
does read the clock (`Date.now()`), so identical (envelope, intent, kernel)
inputs alone do not determine the score. -/
theorem computeRelevance_range (envelope : MemoryEnvelope) (intent : String)
    (kernel : IdentityKernel) (now : Int) :
    0 ≤ computeRelevance envelope intent kernel now
    ∧ computeRelevance envelope intent kernel now ≤ 1 := by
  simp only [computeRelevance, ratMin, ratMax]
  split_ifs <;> constructor <;> linarith

/-- Counterexample to C9 as stated: the same envelope, intent and kernel
scored at time 0 and one year later give different results (the recency
component decays), so the score is not reproducible from those three inputs
alone. -/
theorem computeRelevance_clock_dependent :
    computeRelevance (mkEnv "E" none 0 "semantic") "hello" kernel0 0
      ≠ computeRelevance (mkEnv "E" none 0 "semantic") "hello" kernel0 31536000000 := by
  with_unfolding_all decide

/-- The compilation over a candidate set holding envelope `E` and a
tombstone whose `lineage.supersedes` contains `E`. -/
def packC1 : ContextPack :=
  compileContextPack (fun c => if c = some "cidE" then some "SECRET" else none) 4000 20
    [mkEnv "E" (some "cidE") 0 "semantic", mkTombstone "T" "E" 0] "hello" kernel0 0

/-- C1 (code bug): `compileContextPack` never consults `lineage.supersedes`.
Over a candidate set containing `E` and a tombstone superseding `E`, the
tombstone itself is denied, but `E`'s decrypted content is still delivered
as a full-content slice and `E` is not counted in `memories_denied`. -/
theorem tombstoned_content_still_included :
    (mkTombstone "T" "E" 0).lineage.supersedes = ["E"]
    ∧ packC1.memory_slices.map
        (fun m => (m.envelope.envelope_id, m.decrypted_content, m.access_level))
      = [("E", some "SECRET", "full")]
    ∧ packC1.denied_ids = ["T"]
    ∧ packC1.compilation_trace.memories_denied = 1 := by
  with_unfolding_all decide
